import Mathlib

/-!
Shallow embedding of the filtering-and-aggregation pipeline of `app.py`
(interactive score dashboard).

Modelling conventions:
* A dataframe is a `List Row`; a `Row` stores its categorical cells as an
  association list from column name to `Option String` (`none` = missing /
  NaN), together with the two numeric columns the pipeline coerces with
  `pd.to_numeric` (`Итоговый балл` as `outcome`, `Возраст` as `age`), whose
  `none` means NaN after coercion.
* Numbers are exact rationals.  `pandas`/`numpy` round half-to-even; on the
  inputs relevant here (decimal halves and non-halves away from float
  representation boundaries) the exact half-even rational model agrees with
  the float computation.
* `astype(str)` renders a missing value as the text `"nan"` (`pyStr`);
  `to_str_null` renders it as the sentinel `"NULL"`, mirroring the two
  distinct stringifications used by the source.
* `pandas` `.unique()` keeps first occurrences, and the sidebar sorts the
  option lists; `dedupF` / `sortBy` model this (a structural insertion sort,
  stable, by the Python code-point string order `strLE`).
* The geographic columns are assumed present in the table (the claims under
  study are about the cascade when its widgets are offered).
-/

/-- A categorical cell: `none` models a missing value (NaN). -/
abbrev Cell := Option String

/-- One record of the table: categorical cells plus the two numeric columns
(`Итоговый балл` as `outcome`, `Возраст` as `age`) after `pd.to_numeric`
coercion. -/
structure Row where
  cells : List (String × Cell)
  outcome : Option ℚ
  age : Option ℚ
deriving DecidableEq

/-- Value of column `c` in row `r` (missing if the cell is NaN). -/
def Row.get (r : Row) (c : String) : Cell :=
  match r.cells.find? (fun p => p.1 == c) with
  | some p => p.2
  | none => none

/-- Model of `to_str_null` (app.py line 30): show NaN/None as `"NULL"`, any other
value as its text. -/
def to_str_null (x : Cell) : String :=
  match x with
  | none => "NULL"
  | some s => s

/-- Model of `astype(str)` on a possibly-missing value: NaN renders as `"nan"`. -/
def pyStr (x : Cell) : String :=
  match x with
  | none => "nan"
  | some s => s

/-- Python code-point comparison on character lists (the order behind
`sorted` on strings). -/
def charListLE : List Char → List Char → Bool
  | [], _ => true
  | _ :: _, [] => false
  | x :: xs, y :: ys =>
    if x.toNat < y.toNat then true
    else if y.toNat < x.toNat then false
    else charListLE xs ys

/-- Python `<=` on strings (code-point lexicographic). -/
def strLE (a b : String) : Bool := charListLE a.toList b.toList

/-- Insert `x` into `l` after every element `y` with `le y x` (the stable
insertion step of `sortBy`). -/
def sinsert (le : α → α → Bool) (x : α) : List α → List α
  | [] => [x]
  | y :: ys => if le y x then y :: sinsert le x ys else x :: y :: ys

/-- Stable insertion sort (models `sorted` / `sort_values`). -/
def sortBy (le : α → α → Bool) (l : List α) : List α :=
  l.foldl (fun acc x => sinsert le x acc) []

/-- First-occurrence deduplication (models pandas `.unique()`). -/
def dedupF [DecidableEq α] (l : List α) : List α :=
  l.foldl (fun acc a => if a ∈ acc then acc else acc ++ [a]) []

/-- Model of `with_null_display_options` (app.py lines 116-119): sorted unique options
of a column, with missing values shown as `"NULL"`. -/
def with_null_display_options (df : List Row) (col : String) : List String :=
  sortBy strLE (dedupF (df.map (fun r => to_str_null (r.get col))))

/-- Model of `filter_by_multiselect` (app.py lines 121-126): an empty `chosen` list
returns the table unchanged; otherwise rows are kept when their
`to_str_null`-stringified value is among the chosen options. -/
def filter_by_multiselect (df : List Row) (col : String) (chosen : List String) : List Row :=
  if chosen.isEmpty then df
  else df.filter (fun r => decide (to_str_null (r.get col) ∈ chosen))

/-- The loop at app.py lines 216-217: apply each independent multiselect
filter in turn. -/
def apply_other_filters (df : List Row) (fs : List (String × List String)) : List Row :=
  fs.foldl (fun d f => filter_by_multiselect d f.1 f.2) df

/-- Model of `apply_geo_cascade` (app.py lines 100-108): for each geographic level, a
nonempty selection keeps rows whose `astype(str)` value is selected; an empty
selection skips that stage. -/
def apply_geo_cascade (df : List Row) (sel_obl sel_rn sel_org : List String) : List Row :=
  let f1 := if sel_obl.isEmpty then df
    else df.filter (fun r => decide (pyStr (r.get "Область") ∈ sel_obl))
  let f2 := if sel_rn.isEmpty then f1
    else f1.filter (fun r => decide (pyStr (r.get "Район") ∈ sel_rn))
  if sel_org.isEmpty then f2
  else f2.filter (fun r => decide (pyStr (r.get "Организация") ∈ sel_org))

/-- Model of `sorted(df[col].dropna().astype(str).unique().tolist())` (app.py lines
172, 178, 184): the option list of a geographic multiselect. -/
def geoOpts (df : List Row) (col : String) : List String :=
  sortBy strLE (dedupF (df.filterMap (fun r => r.get col)))

/-- Model of `opts_obl` (app.py line 172): region options from the full table. -/
def opts_obl (df : List Row) : List String := geoOpts df "Область"

/-- Model of `filt1` (app.py line 175): the table narrowed by the region selection
(`df` itself when the selection is empty). -/
def filt1 (df : List Row) (sel_obl : List String) : List Row :=
  if sel_obl.isEmpty then df
  else df.filter (fun r => decide (pyStr (r.get "Область") ∈ sel_obl))

/-- Model of `opts_rn` (app.py line 178): district options, computed from `filt1`. -/
def opts_rn (df : List Row) (sel_obl : List String) : List String :=
  geoOpts (filt1 df sel_obl) "Район"

/-- Model of `filt2` (app.py line 181): `filt1` narrowed by the district selection. -/
def filt2 (df : List Row) (sel_obl sel_rn : List String) : List Row :=
  if sel_rn.isEmpty then filt1 df sel_obl
  else (filt1 df sel_obl).filter (fun r => decide (pyStr (r.get "Район") ∈ sel_rn))

/-- Model of `opts_org` (app.py line 184): organization options, computed from
`filt2`. -/
def opts_org (df : List Row) (sel_obl sel_rn : List String) : List String :=
  geoOpts (filt2 df sel_obl sel_rn) "Организация"

/-- The geographic cascade at its default widget state (every displayed
option selected, app.py lines 173, 179, 185), fed into `apply_geo_cascade`
(line 215). -/
def defaultGeoFiltered (df : List Row) : List Row :=
  apply_geo_cascade df (opts_obl df) (opts_rn df (opts_obl df))
    (opts_org df (opts_obl df) (opts_rn df (opts_obl df)))

/-- Group-key order used by `groupby(..., dropna=False)`: keys sorted, the
NaN key last. -/
def cellLE (a b : Cell) : Bool :=
  match a, b with
  | none, none => true
  | none, some _ => false
  | some _, none => true
  | some x, some y => strLE x y

/-- The distinct group keys of `df.groupby(col, dropna=False)`, in groupby
order (sorted, NaN last). -/
def groupKeys (df : List Row) (col : String) : List Cell :=
  sortBy cellLE (dedupF (df.map (fun r => r.get col)))

/-- The rows of the group with key `k`. -/
def groupRows (df : List Row) (col : String) (k : Cell) : List Row :=
  df.filter (fun r => decide (r.get col = k))

/-- Model of `Series.mean()` of the outcome over a group: NaN outcomes are skipped,
and a group with no numeric outcome has a NaN mean. -/
def mean_outcome (rs : List Row) : Option ℚ :=
  let vs := rs.filterMap (fun r => r.outcome)
  if vs.isEmpty then none else some (vs.sum / vs.length)

/-- numpy/pandas `round` to an integer: round half to even, exact on rationals. -/
def roundHalfEven (q : ℚ) : ℤ :=
  if q - ⌊q⌋ = 1/2 then (if 2 ∣ ⌊q⌋ then ⌊q⌋ else ⌊q⌋ + 1) else round q

/-- Model of `Series.round(2)`: round half to even at two decimal places. -/
def round2 (q : ℚ) : ℚ := (roundHalfEven (q * 100) : ℚ) / 100

/-- Model of `agg_mean` (app.py lines 128-132): per-group mean of the outcome,
rounded to two decimals, keyed by the raw group key (`dropna=False`). -/
def agg_mean (df : List Row) (col : String) : List (Cell × Option ℚ) :=
  (groupKeys df col).map
    (fun k => (k, (mean_outcome (groupRows df col k)).map round2))

/-- Label of a group key in the overview ranking (app.py line 290):
`astype(str)` then `replace({"nan": "NULL"})`. -/
def rankLabel (k : Cell) : String :=
  if pyStr k = "nan" then "NULL" else pyStr k

/-- Model of `sort_values` order on possibly-NaN means (`na_position="last"`). -/
def outcomeLE (a b : Option ℚ) : Bool :=
  match a, b with
  | none, none => true
  | none, some _ => false
  | some _, none => true
  | some x, some y => decide (x ≤ y)

/-- Model of `ranked` (app.py lines 289-291): grouped mean with `dropna=False`,
rounded, the group key stringified with the NaN key relabelled `"NULL"`,
sorted ascending by mean. -/
def ranked (df : List Row) (col : String) : List (String × Option ℚ) :=
  sortBy (fun p q => outcomeLE p.2 q.2)
    ((groupKeys df col).map
      (fun k => (rankLabel k, (mean_outcome (groupRows df col k)).map round2)))

/-- Python `str.lower` restricted to the alphabets occurring here: ASCII
letters and the Cyrillic range А-Я (plus Ё). -/
def pyLowerChar (c : Char) : Char :=
  if 65 ≤ c.toNat ∧ c.toNat ≤ 90 then Char.ofNat (c.toNat + 32)
  else if 0x410 ≤ c.toNat ∧ c.toNat ≤ 0x42F then Char.ofNat (c.toNat + 32)
  else if c.toNat = 0x401 then Char.ofNat 0x451
  else c

/-- Python `str.lower` on a string. -/
def pyLower (s : String) : String := String.mk (s.toList.map pyLowerChar)

/-- Python whitespace (the characters `str.strip` removes). -/
def isPySpace (c : Char) : Bool :=
  c = ' ' || c = '\t' || c = '\n' || c = '\r' || c.toNat = 11 || c.toNat = 12

/-- Python `str.strip`. -/
def pyStrip (s : String) : String :=
  String.mk (((s.toList.dropWhile isPySpace).reverse.dropWhile isPySpace).reverse)

/-- The fixed category order of `order_degree` (app.py lines 40-49). -/
def degreeOrder : List String :=
  ["PhD", "кандидат", "доктор наук", "доктор по профилю", "магистр",
   "не имеет степени", "Значение не указано", "NULL"]

/-- The normalization mapping of `order_degree` (app.py lines 54-63), keyed
by the stripped lowercased text. -/
def degreeMapping : List (String × String) :=
  [("phd", "PhD"), ("кандидат", "кандидат"), ("доктор наук", "доктор наук"),
   ("доктор по профилю", "доктор по профилю"), ("магистр", "магистр"),
   ("не имеет степени", "не имеет степени"),
   ("значение не указано", "Значение не указано"), ("null", "NULL")]

/-- The value-normalization pipeline of `order_degree` (app.py lines 50-64):
`astype(str)` with nan/None replaced by NULL, the spelling harmonization,
then case/whitespace normalization looked up in the mapping, falling back to
the pre-normalization text. -/
def normalizeDegree (c : Cell) : String :=
  let s0 := pyStr c
  let s1 := if s0 = "nan" ∨ s0 = "None" then "NULL" else s0
  let s2 := if s1 = "Ученая степень" then "Учёная степень" else s1
  let n := pyLower (pyStrip s2)
  match degreeMapping.find? (fun p => p.1 == n) with
  | some p => p.2
  | none => s2

/-- Model of `order_degree` (app.py lines 36-66) as the list of categorical codes:
`pd.Categorical(s_mapped, categories=order)` keeps a value only when it is
one of the fixed categories, and silently turns any other value into NaN
(`none`). -/
def order_degree (l : List Cell) : List Cell :=
  l.map (fun c =>
    let v := normalizeDegree c
    if decide (v ∈ degreeOrder) then some v else none)

/-- The categories of `order_degree` that actually occur in the input, in
the fixed categorical order. -/
def observedDegreeCategories (l : List Cell) : List String :=
  degreeOrder.filter (fun d => decide (some d ∈ order_degree l))

/-- Numeric value of a digit run. -/
def digitsToNat (ds : List Char) : ℕ :=
  ds.foldl (fun n c => 10 * n + (c.toNat - 48)) 0

/-- Attempt to match the regex `(\d+)\s*-\s*(\d+)` at the start of the
character list, returning the first captured group.  Because `-` is neither
a digit nor whitespace, the greedy maximal-munch reading is equivalent to
the backtracking regex semantics here. -/
def matchBracket (cs : List Char) : Option ℕ :=
  let p1 := cs.span (fun c => c.isDigit)
  if p1.1.isEmpty then none
  else
    match p1.2.dropWhile isPySpace with
    | '-' :: r3 =>
      let p2 := (r3.dropWhile isPySpace).span (fun c => c.isDigit)
      if p2.1.isEmpty then none else some (digitsToNat p1.1)
    | _ => none

/-- Model of `Series.str.extract(r"(\d+)\s*-\s*(\d+)")` group 1 (app.py line 74):
regex search, i.e. the leftmost match anywhere in the string. -/
def parseStart (s : String) : Option ℕ :=
  go s.toList
where
  go : List Char → Option ℕ
    | [] => none
    | c :: rest =>
      match matchBracket (c :: rest) with
      | some n => some n
      | none => go rest

/-- The sort key of `order_age_group` (app.py line 76): the parsed numeric
start of the bracket, or the sentinel `1e9` when unparseable.  (The float
key of the source is exact on the integers involved.) -/
def ageKey (s : String) : ℕ :=
  match parseStart s with
  | some n => n
  | none => 1000000000

/-- Model of `series.fillna("NULL").astype(str)` (app.py line 72): the displayed
age-group label. -/
def ageLabel (c : Cell) : String :=
  match c with
  | none => "NULL"
  | some t => t

/-- The index of `s.groupby(s).agg(...)` (app.py line 76): the distinct
displayed labels, key-sorted alphabetically by the groupby. -/
def ageUniq (l : List Cell) : List String :=
  sortBy strLE (dedupF (l.map ageLabel))

/-- Model of `.sort_values(key=...)` (app.py line 76): the distinct labels sorted by
the parsed bracket start, unparseable labels keyed `1e9`. -/
def ageOrd (l : List Cell) : List String :=
  sortBy (fun a b => decide (ageKey a ≤ ageKey b)) (ageUniq l)

/-- Model of the category list of `order_age_group` (app.py lines 68-80): the key-sorted
distinct labels with `"NULL"` forced last when present. -/
def order_age_group (l : List Cell) : List String :=
  if decide ("NULL" ∈ ageOrd l) then
    ((ageOrd l).filter (fun x => decide (x ≠ "NULL"))) ++ ["NULL"]
  else ageOrd l

/-- The age-range slider filter (app.py lines 219-220): inclusive bounds,
NaN ages excluded by the comparison semantics. -/
def age_range_filter (df : List Row) (sel_age : Option (ℚ × ℚ)) : List Row :=
  match sel_age with
  | none => df
  | some (lo, hi) =>
    df.filter (fun r =>
      match r.age with
      | some a => decide (lo ≤ a) && decide (a ≤ hi)
      | none => false)

/-- The full filter pipeline feeding the empty guard (app.py lines 215-223):
geographic cascade, independent multiselects, age range, then exclusion of
rows with a missing outcome. -/
def filtered_pipeline (df : List Row) (sel_obl sel_rn sel_org : List String)
    (other : List (String × List String)) (sel_age : Option (ℚ × ℚ)) : List Row :=
  let f0 := apply_geo_cascade df sel_obl sel_rn sel_org
  let f1 := apply_other_filters f0 other
  let f2 := age_range_filter f1 sel_age
  f2.filter (fun r => r.outcome.isSome)

/-- The empty guard (app.py lines 226-228): an empty filtered view surfaces
a warning and stops the render cycle (`none`); otherwise the filtered view
is handed to the aggregation stages (`some`). -/
def render_cycle (df : List Row) (sel_obl sel_rn sel_org : List String)
    (other : List (String × List String)) (sel_age : Option (ℚ × ℚ)) : Option (List Row) :=
  if (filtered_pipeline df sel_obl sel_rn sel_org other sel_age).isEmpty then none
  else some (filtered_pipeline df sel_obl sel_rn sel_org other sel_age)

/-- Sample table: two rows in one group whose outcome mean is exactly
82.345. -/
def dfHalf : List Row :=
  [⟨[("Пол", some "ж")], some (4117/50), none⟩,
   ⟨[("Пол", some "ж")], some (1647/20), none⟩]

/-- Sample table: one row with a present group key and one whose group key
is missing. -/
def dfNullGroup : List Row :=
  [⟨[("Пол", some "м")], none, none⟩,
   ⟨[("Пол", none)], none, none⟩]

/-- Sample table: a single row with every geographic value missing. -/
def dfGeoMissing : List Row :=
  [⟨[("Область", none), ("Район", none), ("Организация", none)], none, none⟩]

/-- Sample table: one fully geo-labelled row and one row with a missing
region. -/
def dfGeoSample : List Row :=
  [⟨[("Область", some "A"), ("Район", some "R1"), ("Организация", some "O1")], none, none⟩,
   ⟨[("Область", none), ("Район", some "R2"), ("Организация", some "O2")], none, none⟩]

/-- Sample table of 100 identical rows. -/
def dfHundred : List Row := List.replicate 100 ⟨[("Пол", some "м")], none, none⟩

theorem sinsert_perm (le : α → α → Bool) (x : α) (l : List α) :
    (sinsert le x l).Perm (x :: l) := by
  induction l with
  | nil => simp [sinsert]
  | cons y ys ih =>
    by_cases h : le y x = true
    · simp only [sinsert, h, if_true]
      exact ((ih.cons y).trans (List.Perm.swap x y ys))
    · simp only [sinsert, h, Bool.false_eq_true, if_false]
      exact List.Perm.refl _

theorem sortBy_perm (le : α → α → Bool) (l : List α) :
    (sortBy le l).Perm l := by
  suffices h : ∀ acc : List α, (l.foldl (fun acc x => sinsert le x acc) acc).Perm (acc ++ l) by
    simpa [sortBy] using h []
  induction l with
  | nil => intro acc; simp
  | cons x xs ih =>
    intro acc
    simp only [List.foldl_cons]
    refine (ih (sinsert le x acc)).trans ?_
    have h1 : (sinsert le x acc ++ xs).Perm ((x :: acc) ++ xs) :=
      (sinsert_perm le x acc).append_right xs
    refine h1.trans ?_
    simp only [List.cons_append]
    exact (List.perm_middle).symm

theorem mem_sortBy {le : α → α → Bool} {l : List α} {a : α} :
    a ∈ sortBy le l ↔ a ∈ l :=
  (sortBy_perm le l).mem_iff

theorem mem_dedupF [DecidableEq α] {l : List α} {a : α} :
    a ∈ dedupF l ↔ a ∈ l := by
  suffices h : ∀ acc : List α,
      a ∈ l.foldl (fun acc b => if b ∈ acc then acc else acc ++ [b]) acc ↔ a ∈ acc ∨ a ∈ l by
    simpa [dedupF] using h []
  induction l with
  | nil => intro acc; simp
  | cons x xs ih =>
    intro acc
    simp only [List.foldl_cons]
    rw [ih]
    by_cases hx : x ∈ acc
    · simp only [hx, if_true, List.mem_cons]
      constructor
      · rintro (h | h)
        · exact Or.inl h
        · exact Or.inr (Or.inr h)
      · rintro (h | h | h)
        · exact Or.inl h
        · exact Or.inl (h ▸ hx)
        · exact Or.inr h
    · simp only [hx, if_false, List.mem_append, List.mem_singleton, List.mem_cons]
      tauto

theorem nodup_dedupF [DecidableEq α] (l : List α) : (dedupF l).Nodup := by
  suffices h : ∀ acc : List α, acc.Nodup →
      (l.foldl (fun acc b => if b ∈ acc then acc else acc ++ [b]) acc).Nodup by
    exact h [] List.nodup_nil
  induction l with
  | nil => intro acc hacc; simpa using hacc
  | cons x xs ih =>
    intro acc hacc
    simp only [List.foldl_cons]
    by_cases hx : x ∈ acc
    · simpa [hx] using ih acc hacc
    · refine ih _ ?_
      simp only [hx, if_false]
      exact List.Nodup.append hacc (List.nodup_singleton x)
        (fun b hb hb' => hx ((List.mem_singleton.mp hb') ▸ hb))

theorem foldl_comm_perm {α : Type u} {β : Type v} {f : β → α → β}
    (hc : ∀ b x y, f (f b x) y = f (f b y) x) {l₁ l₂ : List α} (h : l₁.Perm l₂) :
    ∀ b, l₁.foldl f b = l₂.foldl f b := by
  induction h with
  | nil => intro b; rfl
  | cons x _ ih => intro b; simp only [List.foldl_cons]; exact ih _
  | swap x y l => intro b; simp only [List.foldl_cons]; rw [hc]
  | trans _ _ ih₁ ih₂ => intro b; rw [ih₁ b, ih₂ b]

theorem filter_by_multiselect_comm (d : List Row) (a b : String × List String) :
    filter_by_multiselect (filter_by_multiselect d a.1 a.2) b.1 b.2 =
      filter_by_multiselect (filter_by_multiselect d b.1 b.2) a.1 a.2 := by
  unfold filter_by_multiselect
  by_cases ha : a.2.isEmpty <;> by_cases hb : b.2.isEmpty <;> simp [ha, hb]
  exact List.filter_congr (fun x _ => by rw [Bool.and_comm])

/-- C1: the claim says a user-cleared (empty) multiselect yields 0 rows.
The code (`if not chosen: return df`) returns every row instead: on a
100-row table an empty selection yields 100 rows, not 0. -/
theorem C1_counterexample :
    (filter_by_multiselect dfHundred "Пол" []).length = 100 ∧ (100 : ℕ) ≠ 0 := by
  constructor
  · simp [filter_by_multiselect, dfHundred]
  · decide

/-- C1 (amended): in `filter_by_multiselect` an empty selection is a no-op
(returns the table unchanged), and the default all-options-selected state
(options drawn from any superset table) also returns every row. -/
theorem C1_empty_and_default_selection (df : List Row) (col : String) :
    filter_by_multiselect df col [] = df ∧
    (∀ df' : List Row, (∀ r ∈ df', r ∈ df) →
      filter_by_multiselect df' col (with_null_display_options df col) = df') := by
  constructor
  · simp [filter_by_multiselect]
  · intro df' hsub
    unfold filter_by_multiselect
    by_cases h : (with_null_display_options df col).isEmpty
    · simp [h]
    · simp only [h, Bool.false_eq_true, if_false]
      apply List.filter_eq_self.mpr
      intro r hr
      simp only [decide_eq_true_eq]
      have hmem : to_str_null (r.get col) ∈ df.map (fun r => to_str_null (r.get col)) :=
        List.mem_map_of_mem _ (hsub r hr)
      unfold with_null_display_options
      exact mem_sortBy.mpr (mem_dedupF.mpr hmem)

/-- C1 witness: the amended claim evaluated on the concrete 100-row table. -/
theorem C1_witness :
    filter_by_multiselect dfHundred "Пол" [] = dfHundred ∧
    filter_by_multiselect dfHundred "Пол" (with_null_display_options dfHundred "Пол") = dfHundred :=
  ⟨(C1_empty_and_default_selection dfHundred "Пол").1,
   (C1_empty_and_default_selection dfHundred "Пол").2 dfHundred (fun _ hr => hr)⟩

/-- C3: applying the independent multiselect filters in any permutation
produces the same rows. -/
theorem C3_independent_filters_commute (df : List Row)
    (fs fs' : List (String × List String)) (h : fs.Perm fs') :
    apply_other_filters df fs = apply_other_filters df fs' := by
  unfold apply_other_filters
  exact foldl_comm_perm (fun d a b => filter_by_multiselect_comm d a b) h df

/-- C3 witness: two concrete independent filters applied in both orders. -/
theorem C3_witness :
    ([("Пол", ["м"]), ("Курс", ["1"])] : List (String × List String)).Perm
        [("Курс", ["1"]), ("Пол", ["м"])] ∧
    apply_other_filters dfHundred [("Пол", ["м"]), ("Курс", ["1"])] =
      apply_other_filters dfHundred [("Курс", ["1"]), ("Пол", ["м"])] :=
  ⟨List.Perm.swap ("Курс", ["1"]) ("Пол", ["м"]) [],
   C3_independent_filters_commute dfHundred _ _
     (List.Perm.swap ("Курс", ["1"]) ("Пол", ["м"]) [])⟩

/-- C9: when the pipeline (cascade, independent filters, age range, then
exclusion of missing outcomes) produces zero rows, the render cycle halts
with the warning value `none` and no aggregation input is produced;
otherwise it hands the nonempty filtered view to the aggregations. -/
theorem C9_empty_guard (df : List Row) (sel_obl sel_rn sel_org : List String)
    (other : List (String × List String)) (sel_age : Option (ℚ × ℚ)) :
    (filtered_pipeline df sel_obl sel_rn sel_org other sel_age = [] →
      render_cycle df sel_obl sel_rn sel_org other sel_age = none) ∧
    (filtered_pipeline df sel_obl sel_rn sel_org other sel_age ≠ [] →
      render_cycle df sel_obl sel_rn sel_org other sel_age =
        some (filtered_pipeline df sel_obl sel_rn sel_org other sel_age)) := by
  unfold render_cycle
  constructor
  · intro h
    rw [if_pos (by rw [h]; rfl)]
  · intro h
    rw [if_neg (fun hc => h (List.isEmpty_iff.mp hc))]

/-- C9 witness: a table whose only row has a missing outcome filters to the
empty view, and the render cycle halts with `none`. -/
theorem C9_witness :
    filtered_pipeline dfNullGroup [] [] [] [] none = [] ∧
    render_cycle dfNullGroup [] [] [] [] none = none :=
  ⟨rfl, (C9_empty_guard dfNullGroup [] [] [] [] none).1 rfl⟩

theorem mem_geoOpts {df : List Row} {col : String} {o : String}
    (h : o ∈ geoOpts df col) : ∃ r ∈ df, r.get col = some o := by
  unfold geoOpts at h
  exact List.mem_filterMap.mp (mem_dedupF.mp (mem_sortBy.mp h))

theorem mem_filt1 {df : List Row} {sel_obl : List String} {r : Row}
    (h : r ∈ filt1 df sel_obl) :
    r ∈ df ∧ (sel_obl ≠ [] → pyStr (r.get "Область") ∈ sel_obl) := by
  unfold filt1 at h
  by_cases hs : sel_obl.isEmpty
  · rw [if_pos hs] at h
    exact ⟨h, fun hne => absurd (List.isEmpty_iff.mp hs) hne⟩
  · rw [if_neg hs] at h
    have h2 := List.mem_filter.mp h
    exact ⟨h2.1, fun _ => by simpa using h2.2⟩

theorem mem_filt2 {df : List Row} {sel_obl sel_rn : List String} {r : Row}
    (h : r ∈ filt2 df sel_obl sel_rn) :
    r ∈ filt1 df sel_obl ∧ (sel_rn ≠ [] → pyStr (r.get "Район") ∈ sel_rn) := by
  unfold filt2 at h
  by_cases hs : sel_rn.isEmpty
  · rw [if_pos hs] at h
    exact ⟨h, fun hne => absurd (List.isEmpty_iff.mp hs) hne⟩
  · rw [if_neg hs] at h
    have h2 := List.mem_filter.mp h
    exact ⟨h2.1, fun _ => by simpa using h2.2⟩

/-- C4: every offered district option is the district value of some row of
the region-narrowed table `filt1` (whose rows all match the region
selection when it is nonempty), and every offered organization option is
the organization value of some row of the district-narrowed table `filt2`
(whose rows all match the district selection when it is nonempty) — the
candidate sets are never computed from rows outside the upstream-narrowed
table. -/
theorem C4_cascade_options_from_narrowed (df : List Row) (sel_obl sel_rn : List String) :
    (∀ o ∈ opts_rn df sel_obl, ∃ r ∈ filt1 df sel_obl, r.get "Район" = some o) ∧
    (∀ r ∈ filt1 df sel_obl, r ∈ df ∧ (sel_obl ≠ [] → pyStr (r.get "Область") ∈ sel_obl)) ∧
    (∀ o ∈ opts_org df sel_obl sel_rn,
      ∃ r ∈ filt2 df sel_obl sel_rn, r.get "Организация" = some o) ∧
    (∀ r ∈ filt2 df sel_obl sel_rn,
      r ∈ filt1 df sel_obl ∧ (sel_rn ≠ [] → pyStr (r.get "Район") ∈ sel_rn)) := by
  refine ⟨?_, ?_, ?_, ?_⟩
  · intro o ho
    exact mem_geoOpts ho
  · intro r hr
    exact mem_filt1 hr
  · intro o ho
    exact mem_geoOpts ho
  · intro r hr
    exact mem_filt2 hr

/-- C4 witness: on the concrete sample the offered district option `R1`
arises from a row of the region-narrowed table. -/
theorem C4_witness :
    ∃ r ∈ filt1 dfGeoSample ["A"], r.get "Район" = some "R1" :=
  (C4_cascade_options_from_narrowed dfGeoSample ["A"] []).1 "R1" (by decide)

/-- C10: the claim says the default geographic state excludes every row
with a missing geographic value.  On a table whose only row has all three
geographic values missing, the option lists are empty, every cascade stage
is skipped, and the missing-value row is retained. -/
theorem C10_counterexample :
    defaultGeoFiltered dfGeoMissing = dfGeoMissing ∧
    dfGeoMissing.map (fun r => r.get "Область") = [none] := by
  constructor <;> rfl

/-- C10 (amended): when each geographic option list at the default state is
nonempty and does not contain the text `"nan"`, the default cascade
excludes every row with a missing region, district or organization value
(so the default geographic state is not a no-op on such tables). -/
theorem C10_default_geo_excludes_missing (df : List Row)
    (h1 : opts_obl df ≠ []) (h2 : "nan" ∉ opts_obl df)
    (h3 : opts_rn df (opts_obl df) ≠ []) (h4 : "nan" ∉ opts_rn df (opts_obl df))
    (h5 : opts_org df (opts_obl df) (opts_rn df (opts_obl df)) ≠ [])
    (h6 : "nan" ∉ opts_org df (opts_obl df) (opts_rn df (opts_obl df))) :
    ∀ r ∈ defaultGeoFiltered df,
      r.get "Область" ≠ none ∧ r.get "Район" ≠ none ∧ r.get "Организация" ≠ none := by
  intro r hr
  have hne : ∀ s : List String, s ≠ [] → s.isEmpty = false := by
    intro s hs
    cases s with
    | nil => exact absurd rfl hs
    | cons a t => rfl
  unfold defaultGeoFiltered apply_geo_cascade at hr
  simp only [hne _ h1, hne _ h3, hne _ h5, Bool.false_eq_true, if_false,
    List.mem_filter, decide_eq_true_eq] at hr
  obtain ⟨⟨⟨hrdf, hobl⟩, hrn⟩, horg⟩ := hr
  refine ⟨?_, ?_, ?_⟩ <;> intro hmiss
  · rw [hmiss] at hobl
    exact h2 hobl
  · rw [hmiss] at hrn
    exact h4 hrn
  · rw [hmiss] at horg
    exact h6 horg

/-- C10 witness: on the concrete sample (one full row, one missing-region
row) the surviving row of the default cascade has all geographic values
present. -/
theorem C10_witness :
    Row.get ⟨[("Область", some "A"), ("Район", some "R1"), ("Организация", some "O1")], none, none⟩
        "Область" ≠ none ∧
    Row.get ⟨[("Область", some "A"), ("Район", some "R1"), ("Организация", some "O1")], none, none⟩
        "Район" ≠ none ∧
    Row.get ⟨[("Область", some "A"), ("Район", some "R1"), ("Организация", some "O1")], none, none⟩
        "Организация" ≠ none :=
  C10_default_geo_excludes_missing dfGeoSample (by decide) (by decide) (by decide)
    (by decide) (by decide) (by decide) _ (by decide)

theorem sum_map_add {β : Type u} (g h : β → ℕ) (l : List β) :
    (l.map (fun k => g k + h k)).sum = (l.map g).sum + (l.map h).sum := by
  induction l with
  | nil => rfl
  | cons x xs ih =>
    simp only [List.map_cons, List.sum_cons, ih]
    omega

theorem sum_map_indicator_zero {β : Type u} [DecidableEq β] {b : β} (l : List β) :
    b ∉ l → (l.map (fun k => if b = k then 1 else 0)).sum = 0 := by
  induction l with
  | nil => intro _; rfl
  | cons x xs ih =>
    intro h
    simp only [List.map_cons, List.sum_cons]
    rw [if_neg (fun he => h (List.mem_cons.mpr (Or.inl he))),
      ih (fun hx => h (List.mem_cons.mpr (Or.inr hx)))]

theorem sum_map_indicator_one {β : Type u} [DecidableEq β] {b : β} (l : List β) :
    l.Nodup → b ∈ l → (l.map (fun k => if b = k then 1 else 0)).sum = 1 := by
  induction l with
  | nil => intro _ hb; cases hb
  | cons x xs ih =>
    intro hnd hb
    have hx := (List.nodup_cons.mp hnd).1
    simp only [List.map_cons, List.sum_cons]
    rcases List.mem_cons.mp hb with he | hm
    · subst he
      rw [if_pos rfl, sum_map_indicator_zero xs hx]
    · have hne : b ≠ x := fun he => hx (he ▸ hm)
      rw [if_neg hne, ih (List.nodup_cons.mp hnd).2 hm]

theorem sum_counts_of_cover {α β : Type u} [DecidableEq β] (f : α → β) (l : List α)
    (keys : List β) (hnd : keys.Nodup) (hcov : ∀ a ∈ l, f a ∈ keys) :
    (keys.map (fun k => (l.filter (fun a => decide (f a = k))).length)).sum = l.length := by
  induction l with
  | nil => simp
  | cons a t ih =>
    have hcovt : ∀ x ∈ t, f x ∈ keys := fun x hx => hcov x (List.mem_cons_of_mem a hx)
    have hmap : keys.map (fun k => ((a :: t).filter (fun x => decide (f x = k))).length)
        = keys.map (fun k =>
            (t.filter (fun x => decide (f x = k))).length + (if f a = k then 1 else 0)) := by
      apply List.map_congr_left
      intro k _
      by_cases h : f a = k
      · simp [List.filter_cons, h]
      · simp [List.filter_cons, h]
    rw [hmap, sum_map_add, sum_map_indicator_one keys hnd (hcov a (List.mem_cons_self a t)),
      ih hcovt, List.length_cons]

/-- C5: the claim says every grouped aggregation relabels a missing group
key with the sentinel `"NULL"`.  `agg_mean` keeps the raw NaN key: on a
table with one missing `Пол` cell its key column is `[some "м", none]` and
no key equals `some "NULL"`. -/
theorem C5_counterexample :
    (agg_mean dfNullGroup "Пол").map Prod.fst = [some "м", none] ∧
    some "NULL" ∉ (agg_mean dfNullGroup "Пол").map Prod.fst := by
  constructor
  · rfl
  · decide

/-- C5 (amended): grouping with `dropna=False` never drops a row (the group
sizes over the distinct keys sum to the table size); when the grouping
column has missing values, the missing-key group is present with count
equal to the number of missing-value rows, and the overview ranking
(`ranked`) relabels exactly that group with the sentinel `"NULL"`, while
`agg_mean` keeps the raw missing key. -/
theorem C5_missing_group_preserved (df : List Row) (col : String) :
    ((groupKeys df col).map (fun k => (groupRows df col k).length)).sum = df.length ∧
    ((df.filter (fun r => decide (r.get col = none))).length ≠ 0 →
      none ∈ groupKeys df col ∧
      (groupRows df col none).length = (df.filter (fun r => decide (r.get col = none))).length ∧
      "NULL" ∈ (ranked df col).map Prod.fst) := by
  constructor
  · have hperm : (groupKeys df col).Perm (dedupF (df.map (fun r => r.get col))) :=
      sortBy_perm _ _
    rw [(hperm.map (fun k => (groupRows df col k).length)).sum_eq]
    unfold groupRows
    exact sum_counts_of_cover (fun r => r.get col) df _ (nodup_dedupF _)
      (fun r hr => mem_dedupF.mpr (List.mem_map_of_mem _ hr))
  · intro hne
    have hfil : df.filter (fun r => decide (r.get col = none)) ≠ [] := by
      intro h0
      rw [h0] at hne
      exact hne rfl
    obtain ⟨r, hr⟩ := List.exists_mem_of_ne_nil _ hfil
    have hr2 := List.mem_filter.mp hr
    have hrnone : r.get col = none := by simpa using hr2.2
    have hkey : none ∈ groupKeys df col := by
      unfold groupKeys
      exact mem_sortBy.mpr (mem_dedupF.mpr (hrnone ▸ List.mem_map_of_mem _ hr2.1))
    refine ⟨hkey, rfl, ?_⟩
    unfold ranked
    apply List.mem_map.mpr
    refine ⟨(rankLabel none, (mean_outcome (groupRows df col none)).map round2), ?_, rfl⟩
    exact mem_sortBy.mpr (List.mem_map_of_mem _ hkey)

/-- C5 witness: on the concrete two-row table with one missing group key,
no row is dropped and the overview ranking carries the `"NULL"` label. -/
theorem C5_witness :
    ((groupKeys dfNullGroup "Пол").map (fun k => (groupRows dfNullGroup "Пол" k).length)).sum = 2 ∧
    "NULL" ∈ (ranked dfNullGroup "Пол").map Prod.fst :=
  ⟨(C5_missing_group_preserved dfNullGroup "Пол").1,
   ((C5_missing_group_preserved dfNullGroup "Пол").2 (by decide)).2.2⟩

theorem roundHalfEven_sub_abs (q : ℚ) : |(roundHalfEven q : ℚ) - q| ≤ 1/2 := by
  unfold roundHalfEven
  by_cases h : q - ⌊q⌋ = 1/2
  · rw [if_pos h]
    by_cases h2 : (2 : ℤ) ∣ ⌊q⌋
    · rw [if_pos h2]
      have he : (⌊q⌋ : ℚ) - q = -(1/2) := by linarith
      rw [he, abs_neg, abs_of_pos (by norm_num : (0:ℚ) < 1/2)]
    · rw [if_neg h2]
      push_cast
      have he : ((⌊q⌋ : ℚ) + 1) - q = 1/2 := by linarith
      rw [he, abs_of_pos (by norm_num : (0:ℚ) < 1/2)]
  · rw [if_neg h]
    have := abs_sub_round q
    rwa [abs_sub_comm] at this

theorem round2_mul_den (q : ℚ) : (round2 q * 100).den = 1 := by
  have h : round2 q * 100 = ((roundHalfEven (q * 100) : ℤ) : ℚ) := by
    unfold round2
    field_simp
  rw [h, Rat.den_intCast]

theorem round2_abs (q : ℚ) : |round2 q - q| ≤ 1/200 := by
  have h : round2 q - q = ((roundHalfEven (q * 100) : ℚ) - q * 100) / 100 := by
    unfold round2
    ring
  rw [h, abs_div]
  have h100 : |(100 : ℚ)| = 100 := by norm_num
  rw [h100]
  have := roundHalfEven_sub_abs (q * 100)
  linarith

theorem round2_even_at_tie (q : ℚ) (h : q * 100 - ⌊q * 100⌋ = 1/2) :
    (2 : ℤ) ∣ (round2 q * 100).num := by
  have hcast : round2 q * 100 = ((roundHalfEven (q * 100) : ℤ) : ℚ) := by
    unfold round2
    field_simp
  rw [hcast, Rat.num_intCast]
  unfold roundHalfEven
  rw [if_pos h]
  by_cases h2 : (2 : ℤ) ∣ ⌊q * 100⌋
  · rwa [if_pos h2]
  · rw [if_neg h2]
    omega

theorem mean_dfHalf : mean_outcome dfHalf = some ((16469 : ℚ)/200) := by
  simp [mean_outcome, dfHalf]
  norm_num

theorem round2_tie_dfHalf : round2 ((16469 : ℚ)/200) = (4117 : ℚ)/50 := by
  have h1 : ((16469 : ℚ)/200) * 100 = 16469/2 := by norm_num
  have h2 : (⌊(16469 : ℚ)/2⌋ : ℤ) = 8234 := by norm_num
  simp [round2, roundHalfEven, h1, h2]
  norm_num

theorem agg_mean_dfHalf :
    agg_mean dfHalf "Пол" = [(some "ж", some ((4117 : ℚ)/50))] := by
  have hk : groupKeys dfHalf "Пол" = [some "ж"] := by decide
  have hr : groupRows dfHalf "Пол" (some "ж") = dfHalf := by
    simp [groupRows, dfHalf, Row.get]
  simp [agg_mean, hk, hr, mean_dfHalf, round2_tie_dfHalf]

/-- C2: the claim says a group mean of 82.345 is reported as 82.35
(half-up).  On a concrete group whose mean is exactly 82.345 the rounding of the code reports 82.34, not 82.35. -/
theorem C2_counterexample :
    agg_mean dfHalf "Пол" = [(some "ж", some ((4117 : ℚ)/50))] ∧
    mean_outcome (groupRows dfHalf "Пол" (some "ж")) = some ((16469 : ℚ)/200) ∧
    ((16469 : ℚ)/200) * 100 = 8234 + 1/2 ∧
    ((4117 : ℚ)/50) ≠ 8235/100 := by
  have hr : groupRows dfHalf "Пол" (some "ж") = dfHalf := by
    simp [groupRows, dfHalf, Row.get]
  refine ⟨agg_mean_dfHalf, ?_, by norm_num, by norm_num⟩
  rw [hr]
  exact mean_dfHalf

/-- C2 (amended): every reported group value is the group mean rounded
half-to-even to two decimal places: it is an integer number of hundredths,
within half a hundredth of the true mean, and an even number of hundredths
at an exact decimal-half tie (so 82.345 reports as 82.34, not 82.35). -/
theorem C2_group_mean_rounding (df : List Row) (col : String) (p : Cell × Option ℚ)
    (hp : p ∈ agg_mean df col) (m : ℚ)
    (hm : mean_outcome (groupRows df col p.1) = some m) :
    p.2 = some (round2 m) ∧ (round2 m * 100).den = 1 ∧
    |round2 m - m| ≤ 1/200 ∧
    (m * 100 - ⌊m * 100⌋ = 1/2 → (2 : ℤ) ∣ (round2 m * 100).num) := by
  refine ⟨?_, round2_mul_den m, round2_abs m, fun h => round2_even_at_tie m h⟩
  unfold agg_mean at hp
  obtain ⟨k, hk, heq⟩ := List.mem_map.mp hp
  subst heq
  dsimp only at hm ⊢
  rw [hm]
  rfl

/-- C2 witness: the amended rounding behavior evaluated at the concrete
group whose mean is exactly 82.345. -/
theorem C2_witness :
    (some "ж", some ((4117 : ℚ)/50)) ∈ agg_mean dfHalf "Пол" ∧
    some ((4117 : ℚ)/50) = some (round2 ((16469 : ℚ)/200)) := by
  have hmem : (some "ж", some ((4117 : ℚ)/50)) ∈ agg_mean dfHalf "Пол" := by
    rw [agg_mean_dfHalf]
    exact List.mem_singleton.mpr rfl
  have hmean : mean_outcome (groupRows dfHalf "Пол" (some "ж")) = some ((16469 : ℚ)/200) := by
    have hr : groupRows dfHalf "Пол" (some "ж") = dfHalf := by
      simp [groupRows, dfHalf, Row.get]
    rw [hr]
    exact mean_dfHalf
  exact ⟨hmem, (C2_group_mean_rounding dfHalf "Пол" _ hmem _ hmean).1⟩

/-- C6: for any permutation of the four degree values, the observed ordered
categories are `PhD, кандидат, доктор наук, магистр`, per the fixed rank
table. -/
theorem C6_degree_order (l : List Cell)
    (h : l.Perm [some "магистр", some "PhD", some "кандидат", some "доктор наук"]) :
    observedDegreeCategories l = ["PhD", "кандидат", "доктор наук", "магистр"] := by
  unfold observedDegreeCategories
  have hmap : (order_degree l).Perm
      (order_degree [some "магистр", some "PhD", some "кандидат", some "доктор наук"]) := by
    unfold order_degree
    exact h.map _
  have hfc : degreeOrder.filter (fun d => decide (some d ∈ order_degree l))
      = degreeOrder.filter (fun d => decide (some d ∈
          order_degree [some "магистр", some "PhD", some "кандидат", some "доктор наук"])) :=
    List.filter_congr (fun d _ => decide_eq_decide.mpr hmap.mem_iff)
  rw [hfc]
  decide

/-- C6 witness: the theorem evaluated at the degree values in their given
order. -/
theorem C6_witness :
    observedDegreeCategories [some "магистр", some "PhD", some "кандидат", some "доктор наук"] =
      ["PhD", "кандидат", "доктор наук", "магистр"] :=
  C6_degree_order _ (List.Perm.refl _)

/-- C7: the normalization of `order_degree` does fall back to the original
text for the unknown value `профессор`, but the final
`pd.Categorical(..., categories=order)` turns it into missing (`none`), so
the value is lost rather than preserved — while the case/whitespace variant
`"  PHD  "` is normalized to the canonical `PhD`. -/
theorem C7_unknown_degree_value_lost :
    normalizeDegree (some "профессор") = "профессор" ∧
    order_degree [some "профессор", some "  PHD  "] = [none, some "PhD"] := by
  constructor <;> decide

theorem pairwise_sinsert {α : Type u} {le : α → α → Bool}
    (htot : ∀ a b, (le a b || le b a) = true)
    (htrans : ∀ a b c, le a b = true → le b c = true → le a c = true)
    (x : α) {l : List α} (hl : List.Pairwise (fun a b => le a b = true) l) :
    List.Pairwise (fun a b => le a b = true) (sinsert le x l) := by
  induction l with
  | nil => simp [sinsert]
  | cons y ys ih =>
    rcases List.pairwise_cons.mp hl with ⟨hy, hys⟩
    by_cases h : le y x = true
    · simp only [sinsert, h, if_true]
      apply List.pairwise_cons.mpr
      refine ⟨?_, ih hys⟩
      intro z hz
      rcases List.mem_cons.mp ((sinsert_perm le x ys).mem_iff.mp hz) with hzx | hzys
      · rw [hzx]; exact h
      · exact hy z hzys
    · have hfalse : le y x = false := Bool.not_eq_true _ |>.mp h
      have hxy : le x y = true := by
        have h0 := htot y x
        rw [hfalse, Bool.false_or] at h0
        exact h0
      simp only [sinsert, hfalse, Bool.false_eq_true, if_false]
      apply List.pairwise_cons.mpr
      refine ⟨?_, hl⟩
      intro z hz
      rcases List.mem_cons.mp hz with hzy | hzys
      · rw [hzy]; exact hxy
      · exact htrans x y z hxy (hy z hzys)

theorem pairwise_sortBy {α : Type u} {le : α → α → Bool}
    (htot : ∀ a b, (le a b || le b a) = true)
    (htrans : ∀ a b c, le a b = true → le b c = true → le a c = true)
    (l : List α) : List.Pairwise (fun a b => le a b = true) (sortBy le l) := by
  suffices h : ∀ acc, List.Pairwise (fun a b => le a b = true) acc →
      List.Pairwise (fun a b => le a b = true)
        (l.foldl (fun acc x => sinsert le x acc) acc) by
    exact h [] List.Pairwise.nil
  induction l with
  | nil => intro acc hacc; simpa using hacc
  | cons x xs ih =>
    intro acc hacc
    simp only [List.foldl_cons]
    exact ih _ (pairwise_sinsert htot htrans x hacc)

/-- C8: the claim says every unparseable label sorts after all parseable
brackets.  The unparseable sentinel key is `1e9`, so the parseable bracket
`2000000000-2000000001` (start `2e9`) sorts *after* the unparseable
`unknown` — refuting the universal ordering claim. -/
theorem C8_counterexample :
    order_age_group [some "2000000000-2000000001", some "unknown"] =
      ["unknown", "2000000000-2000000001"] ∧
    parseStart "unknown" = none ∧
    parseStart "2000000000-2000000001" = some 2000000000 := by
  refine ⟨by decide, by decide, by decide⟩

/-- C8 (amended): the category order is sorted ascending by the key
`ageKey` (parsed bracket start, `1e9` for unparseable labels) — so
unparseable labels land after all brackets with start below `1e9` but
before brackets with larger starts; `"NULL"` is forced last when present;
and the concrete scenario `30-39, 10-19, unknown, 20-29` orders as
`10-19, 20-29, 30-39, unknown`. -/
theorem C8_age_bracket_order (l : List Cell) :
    List.Pairwise (fun a b => ageKey a ≤ ageKey b)
      ((order_age_group l).filter (fun x => decide (x ≠ "NULL"))) ∧
    ("NULL" ∈ l.map ageLabel →
      ∃ pre, order_age_group l = pre ++ ["NULL"] ∧ "NULL" ∉ pre) ∧
    order_age_group [some "30-39", some "10-19", some "unknown", some "20-29"] =
      ["10-19", "20-29", "30-39", "unknown"] := by
  have htot : ∀ a b : String,
      (decide (ageKey a ≤ ageKey b) || decide (ageKey b ≤ ageKey a)) = true := by
    intro a b
    rcases Nat.le_total (ageKey a) (ageKey b) with h | h
    · simp [h]
    · simp [h]
  have htrans : ∀ a b c : String, decide (ageKey a ≤ ageKey b) = true →
      decide (ageKey b ≤ ageKey c) = true → decide (ageKey a ≤ ageKey c) = true := by
    intro a b c hab hbc
    simp only [decide_eq_true_eq] at hab hbc ⊢
    exact le_trans hab hbc
  have hord : List.Pairwise (fun a b : String => ageKey a ≤ ageKey b) (ageOrd l) :=
    (pairwise_sortBy htot htrans (ageUniq l)).imp (fun h => of_decide_eq_true h)
  have hfilter_idem : ((ageOrd l).filter (fun x => decide (x ≠ "NULL"))).filter
      (fun x => decide (x ≠ "NULL")) = (ageOrd l).filter (fun x => decide (x ≠ "NULL")) := by
    rw [List.filter_filter]
    exact List.filter_congr (fun x _ => by rw [Bool.and_self])
  refine ⟨?_, ?_, by decide⟩
  · unfold order_age_group
    by_cases hN : "NULL" ∈ ageOrd l
    · rw [if_pos (by simpa using hN), List.filter_append]
      have h2 : (["NULL"] : List String).filter (fun x => decide (x ≠ "NULL")) = [] := rfl
      rw [h2, List.append_nil, hfilter_idem]
      exact hord.filter _
    · rw [if_neg (by simpa using hN)]
      exact hord.filter _
  · intro hmem
    have hN : "NULL" ∈ ageOrd l := by
      unfold ageOrd ageUniq
      exact mem_sortBy.mpr (mem_sortBy.mpr (mem_dedupF.mpr hmem))
    refine ⟨(ageOrd l).filter (fun x => decide (x ≠ "NULL")), ?_, ?_⟩
    · unfold order_age_group
      rw [if_pos (by simpa using hN)]
    · intro hc
      have := (List.mem_filter.mp hc).2
      simp at this

/-- C8 witness: a table with a missing age group gets `"NULL"` forced last,
and the concrete four-label scenario orders as stated. -/
theorem C8_witness :
    (∃ pre, order_age_group [some "30-39", none] = pre ++ ["NULL"] ∧ "NULL" ∉ pre) ∧
    order_age_group [some "30-39", some "10-19", some "unknown", some "20-29"] =
      ["10-19", "20-29", "30-39", "unknown"] :=
  ⟨(C8_age_bracket_order [some "30-39", none]).2.1 (by decide),
   (C8_age_bracket_order []).2.2⟩
